import Mathlib

/-!
Verification of the indicator/signal/statistics core of a stock technical-analysis
program. Series values are embedded as `Option ℚ` (with `none` playing the role of
a floating-point NaN) or, where the distinction between NaN and infinities matters,
as the type `RFloat` below. Pandas/NumPy elementwise semantics are modelled
explicitly: comparisons involving NaN are `false`, `shift(1)` prepends NaN,
division follows the IEEE conventions `0/0 = NaN`, `x/0 = ±∞` for `x ≠ 0`.
-/

/-- A series value in the float model that distinguishes NaN from infinities:
`nan`, `posInf`, `negInf`, or a finite value `val q`. -/
inductive RFloat where
  | nan : RFloat
  | posInf : RFloat
  | negInf : RFloat
  | val : ℚ → RFloat
deriving DecidableEq, Repr

namespace RFloat

/-- IEEE-style `≤` as a boolean: any comparison with NaN is false. -/
def fle : RFloat → RFloat → Bool
  | nan, _ => false
  | _, nan => false
  | negInf, _ => true
  | _, negInf => false
  | _, posInf => true
  | posInf, _ => false
  | val a, val b => a ≤ b

/-- Subtraction in the float model (only the cases arising here; `∞ - ∞ = NaN`). -/
def fsub : RFloat → RFloat → RFloat
  | nan, _ => nan
  | _, nan => nan
  | posInf, posInf => nan
  | posInf, _ => posInf
  | negInf, negInf => nan
  | negInf, _ => negInf
  | val _, posInf => negInf
  | val _, negInf => posInf
  | val a, val b => val (a - b)

/-- Division in the float model: `0/0 = NaN`, `x/0 = ±∞` by the sign of `x`. -/
def fdiv : RFloat → RFloat → RFloat
  | nan, _ => nan
  | _, nan => nan
  | posInf, posInf => nan
  | posInf, negInf => nan
  | negInf, posInf => nan
  | negInf, negInf => nan
  | posInf, val b => if b < 0 then negInf else posInf
  | negInf, val b => if b < 0 then posInf else negInf
  | val _, posInf => val 0
  | val _, negInf => val 0
  | val a, val b =>
    if b = 0 then (if a = 0 then nan else if 0 < a then posInf else negInf)
    else val (a / b)

/-- Scalar multiplication by a positive rational constant. -/
def scale (c : ℚ) : RFloat → RFloat
  | nan => nan
  | posInf => posInf
  | negInf => negInf
  | val a => val (c * a)

end RFloat

/-! ## Series utilities (`src/utils/helpers.py`)

A numeric pandas series is a `List (Option ℚ)`; `none` is NaN. -/

/-- Pandas elementwise `>`: false whenever either side is NaN. -/
def optGT : Option ℚ → Option ℚ → Bool
  | some a, some b => decide (b < a)
  | _, _ => false

/-- Pandas elementwise `<`: false whenever either side is NaN. -/
def optLT : Option ℚ → Option ℚ → Bool
  | some a, some b => decide (a < b)
  | _, _ => false

/-- Pandas elementwise `<=`: false whenever either side is NaN. -/
def optLE : Option ℚ → Option ℚ → Bool
  | some a, some b => decide (a ≤ b)
  | _, _ => false

/-- Pandas elementwise `>=`: false whenever either side is NaN. -/
def optGE : Option ℚ → Option ℚ → Bool
  | some a, some b => decide (b ≤ a)
  | _, _ => false

/-- Pandas `Series.shift(1)`: the value at position `i` becomes the value that was
at position `i-1`, with NaN at position 0; length is preserved. -/
def shift1 : List (Option ℚ) → List (Option ℚ)
  | [] => []
  | x :: xs => none :: (x :: xs).dropLast

/-- `identify_cross_signals(fast_line, slow_line)` from `src/utils/helpers.py`:
`golden = (fast > slow) & (fast.shift(1) <= slow.shift(1))`,
`death  = (fast < slow) & (fast.shift(1) >= slow.shift(1))`. -/
def identify_cross_signals (fast_line slow_line : List (Option ℚ)) :
    List Bool × List Bool :=
  (List.zipWith and (List.zipWith optGT fast_line slow_line)
      (List.zipWith optLE (shift1 fast_line) (shift1 slow_line)),
   List.zipWith and (List.zipWith optLT fast_line slow_line)
      (List.zipWith optGE (shift1 fast_line) (shift1 slow_line)))

/-! ## Helper lemmas about `getD` on zipped and shifted series -/

theorem getD_zipWith {α β γ : Type} (f : α → β → γ) (l₁ : List α) (l₂ : List β)
    (i : ℕ) (d₁ : α) (d₂ : β) (d : γ) (h₁ : i < l₁.length) (h₂ : i < l₂.length) :
    (List.zipWith f l₁ l₂).getD i d = f (l₁.getD i d₁) (l₂.getD i d₂) := by
  induction l₁ generalizing l₂ i with
  | nil => simp at h₁
  | cons x xs ih =>
    cases l₂ with
    | nil => simp at h₂
    | cons y ys =>
      cases i with
      | zero => simp
      | succ j =>
        simp only [List.zipWith_cons_cons, List.getD_cons_succ]
        exact ih ys j (by simpa using h₁) (by simpa using h₂)

theorem shift1_length (l : List (Option ℚ)) : (shift1 l).length = l.length := by
  cases l with
  | nil => rfl
  | cons x xs => simp [shift1]

theorem shift1_getD_zero (l : List (Option ℚ)) : (shift1 l).getD 0 none = none := by
  cases l <;> rfl

theorem shift1_getD_succ (l : List (Option ℚ)) (j : ℕ) (h : j + 1 < l.length) :
    (shift1 l).getD (j + 1) none = l.getD j none := by
  cases l with
  | nil => simp at h
  | cons x xs =>
    have hlt : j < ((x :: xs).dropLast).length := by
      simp only [List.length_dropLast]
      omega
    have hlt2 : j < (x :: xs).length := by omega
    simp only [shift1, List.getD_cons_succ]
    rw [List.getD_eq_getElem _ _ hlt, List.getD_eq_getElem _ _ hlt2,
      List.getElem_dropLast]

theorem cross_getD (cmp₁ cmp₂ : Option ℚ → Option ℚ → Bool)
    (fast slow : List (Option ℚ)) (i : ℕ)
    (hi : i < fast.length) (hs : i < slow.length) :
    (List.zipWith and (List.zipWith cmp₁ fast slow)
      (List.zipWith cmp₂ (shift1 fast) (shift1 slow))).getD i false =
    (cmp₁ (fast.getD i none) (slow.getD i none) &&
     cmp₂ ((shift1 fast).getD i none) ((shift1 slow).getD i none)) := by
  have h₁ : i < (List.zipWith cmp₁ fast slow).length := by
    simp only [List.length_zipWith]; omega
  have h₂ : i < (List.zipWith cmp₂ (shift1 fast) (shift1 slow)).length := by
    simp only [List.length_zipWith, shift1_length]; omega
  rw [getD_zipWith and _ _ i false false false h₁ h₂,
    getD_zipWith cmp₁ _ _ i none none false hi hs,
    getD_zipWith cmp₂ _ _ i none none false (by rwa [shift1_length])
      (by rwa [shift1_length])]

/-- C1: for equal-length series, `golden[i]` is true exactly when both inputs are
defined at `i` and `i-1` with `fast[i] > slow[i]` and `fast[i-1] ≤ slow[i-1]`, and
`death[i]` exactly when both are defined with `fast[i] < slow[i]` and
`fast[i-1] ≥ slow[i-1]`; index 0 is always false and a NaN at `i` or `i-1` forces
false. -/
theorem identify_cross_signals_spec (fast slow : List (Option ℚ))
    (hlen : fast.length = slow.length) (i : ℕ) (hi : i < fast.length) :
    ((identify_cross_signals fast slow).1.getD i false = true ↔
      (0 < i ∧ ∃ a b c d, fast.getD i none = some a ∧ slow.getD i none = some b ∧
        b < a ∧ fast.getD (i - 1) none = some c ∧ slow.getD (i - 1) none = some d ∧
        c ≤ d)) ∧
    ((identify_cross_signals fast slow).2.getD i false = true ↔
      (0 < i ∧ ∃ a b c d, fast.getD i none = some a ∧ slow.getD i none = some b ∧
        a < b ∧ fast.getD (i - 1) none = some c ∧ slow.getD (i - 1) none = some d ∧
        d ≤ c)) := by
  have his : i < slow.length := by omega
  simp only [identify_cross_signals]
  rw [cross_getD optGT optLE fast slow i hi his,
    cross_getD optLT optGE fast slow i hi his]
  cases i with
  | zero =>
    rw [shift1_getD_zero, shift1_getD_zero]
    constructor
    · constructor
      · intro h
        exfalso
        cases hfs : fast.getD 0 none <;> cases hss : slow.getD 0 none <;>
          simp [optGT, optLE, hfs, hss] at h
      · rintro ⟨h, -⟩; omega
    · constructor
      · intro h
        exfalso
        cases hfs : fast.getD 0 none <;> cases hss : slow.getD 0 none <;>
          simp [optLT, optGE, hfs, hss] at h
      · rintro ⟨h, -⟩; omega
  | succ j =>
    have hsuc : j + 1 < fast.length := hi
    rw [shift1_getD_succ fast j hsuc, shift1_getD_succ slow j (by omega)]
    simp only [Nat.add_sub_cancel]
    cases hfi : fast.getD (j + 1) none <;> cases hsi : slow.getD (j + 1) none <;>
      cases hfj : fast.getD j none <;> cases hsj : slow.getD j none <;>
        simp [optGT, optLT, optLE, optGE]

/-- C2: for any two input series (NaN allowed), the crossing detector never flags
golden and death cross both true at one index, and flags neither at index 0. -/
theorem identify_cross_signals_exclusive (fast slow : List (Option ℚ)) (i : ℕ) :
    ((identify_cross_signals fast slow).1.getD i false &&
      (identify_cross_signals fast slow).2.getD i false) = false ∧
    (identify_cross_signals fast slow).1.getD 0 false = false ∧
    (identify_cross_signals fast slow).2.getD 0 false = false := by
  refine ⟨?_, ?_, ?_⟩
  · rcases Nat.lt_or_ge i (min fast.length slow.length) with hlt | hge
    · have hif : i < fast.length := by omega
      have his : i < slow.length := by omega
      simp only [identify_cross_signals]
      rw [cross_getD optGT optLE fast slow i hif his,
        cross_getD optLT optGE fast slow i hif his]
      cases hfi : fast.getD i none <;> cases hsi : slow.getD i none <;>
        simp [optGT, optLT]
      rename_i a b
      by_cases hab : b < a
      · have h2 : ¬ a < b := lt_asymm hab
        simp [h2]
      · simp [hab]
    · have hgd : (identify_cross_signals fast slow).1.getD i false = false := by
        apply List.getD_eq_default
        simp only [identify_cross_signals, List.length_zipWith, shift1_length]
        omega
      rw [hgd, Bool.false_and]
  · rcases Nat.lt_or_ge 0 (min fast.length slow.length) with hlt | hge
    · have hif : 0 < fast.length := by omega
      have his : 0 < slow.length := by omega
      simp only [identify_cross_signals]
      rw [cross_getD optGT optLE fast slow 0 hif his,
        shift1_getD_zero, shift1_getD_zero]
      simp [optLE]
    · apply List.getD_eq_default
      simp only [identify_cross_signals, List.length_zipWith, shift1_length]
      omega
  · rcases Nat.lt_or_ge 0 (min fast.length slow.length) with hlt | hge
    · have hif : 0 < fast.length := by omega
      have his : 0 < slow.length := by omega
      simp only [identify_cross_signals]
      rw [cross_getD optLT optGE fast slow 0 hif his,
        shift1_getD_zero, shift1_getD_zero]
      simp [optGE]
    · apply List.getD_eq_default
      simp only [identify_cross_signals, List.length_zipWith, shift1_length]
      omega

/-- Witness for C1 at concrete input: fast = [1, 3], slow = [2, 2] produces a
golden cross at index 1. -/
theorem identify_cross_signals_spec_witness :
    ((identify_cross_signals [some 1, some 3] [some 2, some 2]).1.getD 1 false
      = true ↔
      (0 < 1 ∧ ∃ a b c d,
        ([some 1, some 3] : List (Option ℚ)).getD 1 none = some a ∧
        ([some 2, some 2] : List (Option ℚ)).getD 1 none = some b ∧ b < a ∧
        ([some 1, some 3] : List (Option ℚ)).getD 0 none = some c ∧
        ([some 2, some 2] : List (Option ℚ)).getD 0 none = some d ∧ c ≤ d)) ∧
    ((identify_cross_signals [some 1, some 3] [some 2, some 2]).2.getD 1 false
      = true ↔
      (0 < 1 ∧ ∃ a b c d,
        ([some 1, some 3] : List (Option ℚ)).getD 1 none = some a ∧
        ([some 2, some 2] : List (Option ℚ)).getD 1 none = some b ∧ a < b ∧
        ([some 1, some 3] : List (Option ℚ)).getD 0 none = some c ∧
        ([some 2, some 2] : List (Option ℚ)).getD 0 none = some d ∧ d ≤ c)) :=
  identify_cross_signals_spec [some 1, some 3] [some 2, some 2] rfl 1
    (by decide)

/-! ## Signal forward-return analysis (`src/analysis/statistics.py`)

`_calculate_signal_returns(signal_series, holding_days)` iterates over the index
positions where the boolean signal is true, keeps those with `idx + holding_days <
len(data)`, and computes `(close[idx+h] - close[idx]) / close[idx]`; the aggregate
statistics are 0 when no qualifying signal exists. The signal series is aligned
with the close column, so a firing at row `i` resolves to position `i`. -/

/-- Index positions at which the boolean signal series is true
(`signal_series[signal_series].index` resolved through `get_loc`). -/
def signal_points (signal : List Bool) : List ℕ :=
  (List.range signal.length).filter (fun i => signal.getD i false)

/-- The `returns_list` accumulation loop of `_calculate_signal_returns`. -/
def signalReturnsList (close : List ℚ) (pts : List ℕ) (hd : ℕ) : List ℚ :=
  pts.foldl
    (fun acc i =>
      if i + hd < close.length then
        acc ++ [(close.getD (i + hd) 0 - close.getD i 0) / close.getD i 0]
      else acc)
    []

/-- The statistics dictionary returned by `_calculate_signal_returns`. -/
structure SignalPerf where
  signal_count : ℕ
  avg_return : ℚ
  win_rate : ℚ
  max_return : ℚ
  min_return : ℚ
  total_trades : ℕ
deriving DecidableEq, Repr

/-- `_calculate_signal_returns(signal_series, holding_days)`. -/
def calculate_signal_returns (close : List ℚ) (signal : List Bool) (hd : ℕ) :
    SignalPerf :=
  let pts := signal_points signal
  let rl := signalReturnsList close pts hd
  if rl.isEmpty then
    { signal_count := 0, avg_return := 0, win_rate := 0, max_return := 0,
      min_return := 0, total_trades := pts.length }
  else
    { signal_count := rl.length,
      avg_return := 100 * (rl.sum / rl.length),
      win_rate := 100 * (((rl.filter (fun r => 0 < r)).length : ℚ) / rl.length),
      max_return := 100 * (rl.foldl max (rl.headD 0)),
      min_return := 100 * (rl.foldl min (rl.headD 0)),
      total_trades := pts.length }

theorem foldl_append_if (p : ℕ → Prop) [DecidablePred p] (f : ℕ → ℚ) :
    ∀ (pts : List ℕ) (acc : List ℚ),
    pts.foldl (fun a i => if p i then a ++ [f i] else a) acc =
      acc ++ (pts.filter (fun i => decide (p i))).map f := by
  intro pts
  induction pts with
  | nil => intro acc; simp
  | cons j rest ih =>
    intro acc
    by_cases hj : p j
    · simp only [List.foldl_cons, if_pos hj, List.filter_cons,
        decide_eq_true hj, ih]
      simp
    · simp only [List.foldl_cons, if_neg hj, List.filter_cons, ih]
      simp [hj]

/-- The qualifying signal positions: signal fires at `i` and bar `i + hd` exists. -/
def qualifyingPoints (close : List ℚ) (signal : List Bool) (hd : ℕ) : List ℕ :=
  (List.range close.length).filter
    (fun i => decide (i + hd < close.length) && signal.getD i false)

/-- A 10-bar close series used as the concrete scenario of the claim. -/
def close10 : List ℚ := [1, 2, 3, 4, 5, 6, 7, 8, 9, 10]

/-- A signal series over 10 bars firing only at bar 9 (0-indexed). -/
def signalAt9 : List Bool :=
  [false, false, false, false, false, false, false, false, false, true]

/-- C3: a signal at bar `i` contributes a trade exactly when bar `i + hd` exists,
with return `(close[i+hd] - close[i]) / close[i]`; in the 10-bar series with
`hd = 5` a signal at bar 9 yields zero aggregated trades, and with no qualifying
signal every aggregate statistic is reported as 0. -/
theorem signal_returns_spec (close : List ℚ) (signal : List Bool) (hd : ℕ)
    (hlen : signal.length = close.length) :
    (signalReturnsList close (signal_points signal) hd =
      (qualifyingPoints close signal hd).map
        (fun i => (close.getD (i + hd) 0 - close.getD i 0) / close.getD i 0)) ∧
    ((calculate_signal_returns close signal hd).signal_count =
      (qualifyingPoints close signal hd).length) ∧
    (signalReturnsList close (signal_points signal) hd = [] →
      (calculate_signal_returns close signal hd).signal_count = 0 ∧
      (calculate_signal_returns close signal hd).avg_return = 0 ∧
      (calculate_signal_returns close signal hd).win_rate = 0 ∧
      (calculate_signal_returns close signal hd).max_return = 0 ∧
      (calculate_signal_returns close signal hd).min_return = 0) ∧
    ((calculate_signal_returns close10 signalAt9 5).signal_count = 0 ∧
      (calculate_signal_returns close10 signalAt9 5).avg_return = 0 ∧
      (calculate_signal_returns close10 signalAt9 5).win_rate = 0 ∧
      (calculate_signal_returns close10 signalAt9 5).max_return = 0 ∧
      (calculate_signal_returns close10 signalAt9 5).min_return = 0 ∧
      (calculate_signal_returns close10 signalAt9 5).total_trades = 1) := by
  have hmain : signalReturnsList close (signal_points signal) hd =
      (qualifyingPoints close signal hd).map
        (fun i => (close.getD (i + hd) 0 - close.getD i 0) / close.getD i 0) := by
    unfold signalReturnsList signal_points qualifyingPoints
    rw [foldl_append_if (fun i => i + hd < close.length)
      (fun i => (close.getD (i + hd) 0 - close.getD i 0) / close.getD i 0)]
    rw [List.nil_append, List.filter_filter, hlen]
  refine ⟨hmain, ?_, ?_, ?_⟩
  · by_cases hemp : (signalReturnsList close (signal_points signal) hd).isEmpty
    · have h0 : signalReturnsList close (signal_points signal) hd = [] :=
        List.isEmpty_iff.mp hemp
      have : (qualifyingPoints close signal hd).map
          (fun i => (close.getD (i + hd) 0 - close.getD i 0) / close.getD i 0)
          = [] := by rw [← hmain, h0]
      have hq : qualifyingPoints close signal hd = [] :=
        List.map_eq_nil_iff.mp this
      simp [calculate_signal_returns, hemp, hq]
    · have hfalse :
          (signalReturnsList close (signal_points signal) hd).isEmpty = false := by
        rwa [Bool.not_eq_true] at hemp
      simp only [calculate_signal_returns, hfalse, Bool.false_eq_true, if_false]
      rw [hmain, List.length_map]
  · intro h0
    have hemp : (signalReturnsList close (signal_points signal) hd).isEmpty := by
      rw [h0]; rfl
    simp [calculate_signal_returns, hemp]
  · refine ⟨by decide, by decide, by decide, by decide, by decide, by decide⟩

/-- Witness for C3 at a concrete input: 3 bars, signal at bar 0, horizon 2. -/
theorem signal_returns_spec_witness :
    (signalReturnsList [1, 2, 4] (signal_points [true, false, false]) 2 =
      (qualifyingPoints [1, 2, 4] [true, false, false] 2).map
        (fun i => (([1, 2, 4] : List ℚ).getD (i + 2) 0 -
          ([1, 2, 4] : List ℚ).getD i 0) / ([1, 2, 4] : List ℚ).getD i 0)) ∧
    ((calculate_signal_returns [1, 2, 4] [true, false, false] 2).signal_count =
      (qualifyingPoints [1, 2, 4] [true, false, false] 2).length) ∧
    (signalReturnsList [1, 2, 4] (signal_points [true, false, false]) 2 = [] →
      (calculate_signal_returns [1, 2, 4] [true, false, false] 2).signal_count
        = 0 ∧
      (calculate_signal_returns [1, 2, 4] [true, false, false] 2).avg_return
        = 0 ∧
      (calculate_signal_returns [1, 2, 4] [true, false, false] 2).win_rate = 0 ∧
      (calculate_signal_returns [1, 2, 4] [true, false, false] 2).max_return
        = 0 ∧
      (calculate_signal_returns [1, 2, 4] [true, false, false] 2).min_return
        = 0) ∧
    ((calculate_signal_returns close10 signalAt9 5).signal_count = 0 ∧
      (calculate_signal_returns close10 signalAt9 5).avg_return = 0 ∧
      (calculate_signal_returns close10 signalAt9 5).win_rate = 0 ∧
      (calculate_signal_returns close10 signalAt9 5).max_return = 0 ∧
      (calculate_signal_returns close10 signalAt9 5).min_return = 0 ∧
      (calculate_signal_returns close10 signalAt9 5).total_trades = 1) :=
  signal_returns_spec [1, 2, 4] [true, false, false] 2 rfl

/-! ## Data cleaning and validation (`src/utils/helpers.py`, `src/data/data_loader.py`)

A fetched row is a list of numeric cells (`RFloat`, so NaN and ±∞ can occur before
cleaning). `clean_stock_data` drops rows containing NaN, drops duplicate rows
keeping the first occurrence, then replaces ±∞ by NaN and drops again;
`_preprocess_data` runs the cleaning and raises when fewer than 30 rows remain. -/

/-- A cell is finite (not NaN and not ±∞). -/
def isFiniteCell : RFloat → Bool
  | RFloat.val _ => true
  | _ => false

/-- A row free of NaN cells (first `dropna`). -/
def rowNotNan (r : List RFloat) : Bool :=
  r.all (fun c => decide (c ≠ RFloat.nan))

/-- A row whose cells are all finite (`replace([inf,-inf], nan).dropna()`). -/
def rowFinite (r : List RFloat) : Bool :=
  r.all isFiniteCell

/-- `drop_duplicates()`: keep the first occurrence of each row. -/
def dedupAux (seen : List (List RFloat)) : List (List RFloat) → List (List RFloat)
  | [] => []
  | r :: rs => if r ∈ seen then dedupAux seen rs else r :: dedupAux (r :: seen) rs

/-- `clean_stock_data(df)` from `src/utils/helpers.py`: dropna, drop_duplicates,
replace ±∞ → NaN, dropna. -/
def clean_stock_data (rows : List (List RFloat)) : List (List RFloat) :=
  (dedupAux [] (rows.filter rowNotNan)).filter rowFinite

/-- The cleaning-and-validation tail of `_preprocess_data` in
`src/data/data_loader.py` (the earlier steps rename/sort/select columns): clean,
then raise `ValueError` when fewer than 30 rows remain, otherwise return the
cleaned series. -/
def preprocess_data (rows : List (List RFloat)) : Except String (List (List RFloat)) :=
  let cleaned := clean_stock_data rows
  if cleaned.length < 30 then
    Except.error "insufficient data: fewer than 30 records"
  else
    Except.ok cleaned

/-- C7: data loading raises an input-validation error exactly when the cleaned
series has fewer than 30 bars, returning no series in that case; a cleaned series
of 30 or more bars is returned unchanged and without error. -/
theorem preprocess_min_bars (rows : List (List RFloat)) :
    ((∃ msg, preprocess_data rows = Except.error msg) ↔
      (clean_stock_data rows).length < 30) ∧
    (∀ out, preprocess_data rows = Except.ok out →
      out = clean_stock_data rows ∧ 30 ≤ out.length) := by
  unfold preprocess_data
  by_cases hlt : (clean_stock_data rows).length < 30
  · rw [if_pos hlt]
    refine ⟨⟨fun _ => hlt, fun _ => ⟨_, rfl⟩⟩, ?_⟩
    intro out hout
    exact absurd hout (by simp)
  · rw [if_neg hlt]
    refine ⟨⟨fun ⟨msg, hmsg⟩ => by simp at hmsg, fun h => absurd h hlt⟩, ?_⟩
    intro out hout
    have : out = clean_stock_data rows := by
      simpa using hout.symm
    exact ⟨this, by rw [this]; omega⟩

/-- Witness for C7 at a concrete input: a NaN row is dropped, leaving one row,
which is below the 30-bar minimum. -/
theorem preprocess_min_bars_witness :
    ((∃ msg, preprocess_data [[RFloat.val 1], [RFloat.nan]] = Except.error msg) ↔
      (clean_stock_data [[RFloat.val 1], [RFloat.nan]]).length < 30) ∧
    (∀ out, preprocess_data [[RFloat.val 1], [RFloat.nan]] = Except.ok out →
      out = clean_stock_data [[RFloat.val 1], [RFloat.nan]] ∧ 30 ≤ out.length) :=
  preprocess_min_bars [[RFloat.val 1], [RFloat.nan]]

/-! ## Squeeze-episode extraction (`src/indicators/bollinger.py`)

`analyze_squeeze_pattern` walks the boolean squeeze-condition series with an
`in_squeeze` flag, recording `(squeeze_start, i-1)` each time the condition turns
false while a squeeze is open; an episode still open when the series ends is
never recorded. -/

/-- The episode-collection loop of `analyze_squeeze_pattern`: `i` is the index of
the next element, `inSq` the `in_squeeze` flag, `start` the pending
`squeeze_start`. -/
def squeezeLoop : List Bool → ℕ → Bool → ℕ → List (ℕ × ℕ)
  | [], _, _, _ => []
  | b :: rest, i, inSq, start =>
    if b && !inSq then squeezeLoop rest (i + 1) true i
    else if !b && inSq then
      (start, i - 1) :: squeezeLoop rest (i + 1) false start
    else squeezeLoop rest (i + 1) inSq start

/-- `squeeze_periods` as computed by `analyze_squeeze_pattern` over the boolean
squeeze-condition series. -/
def analyze_squeeze_periods (cond : List Bool) : List (ℕ × ℕ) :=
  squeezeLoop cond 0 false 0

/-- The start index of the maximal run of true values ending at `e` (with respect
to the ambient condition `c`). -/
def runStart (c : ℕ → Bool) : ℕ → ℕ
  | 0 => 0
  | e + 1 => if c e then runStart c e else e + 1

/-- Specification-side list of completed squeeze episodes: one entry per index
`j` where the condition falls from true to false, paired as (start of the maximal
true-run ending at `j-1`, `j-1`). A final run that reaches the end of the series
has no such `j` and contributes nothing. -/
def completedRunEntry (c : ℕ → Bool) (j : ℕ) : Option (ℕ × ℕ) :=
  if 0 < j ∧ c j = false ∧ c (j - 1) = true then
    some (runStart c (j - 1), j - 1)
  else none

/-- All completed squeeze episodes of a boolean condition series. -/
def completedRuns (cond : List Bool) : List (ℕ × ℕ) :=
  (List.range cond.length).filterMap
    (completedRunEntry (fun t => cond.getD t false))

theorem completedRunEntry_none_of_true (c : ℕ → Bool) (i : ℕ) (h : c i = true) :
    completedRunEntry c i = none := by
  unfold completedRunEntry
  rw [if_neg]
  rintro ⟨-, hf, -⟩
  rw [h] at hf
  exact Bool.noConfusion hf

theorem completedRunEntry_none_of_prev (c : ℕ → Bool) (i : ℕ)
    (h : 0 < i → c (i - 1) = false) : completedRunEntry c i = none := by
  unfold completedRunEntry
  rw [if_neg]
  rintro ⟨hpos, -, hprev⟩
  rw [h hpos] at hprev
  exact Bool.noConfusion hprev

theorem completedRunEntry_some (c : ℕ → Bool) (i : ℕ) (hpos : 0 < i)
    (hf : c i = false) (hprev : c (i - 1) = true) :
    completedRunEntry c i = some (runStart c (i - 1), i - 1) := by
  unfold completedRunEntry
  rw [if_pos ⟨hpos, hf, hprev⟩]

theorem runStart_of_run (c : ℕ → Bool) :
    ∀ (e s : ℕ), s ≤ e → (∀ j, s ≤ j → j ≤ e → c j = true) →
    (s = 0 ∨ c (s - 1) = false) → runStart c e = s := by
  intro e
  induction e with
  | zero =>
    intro s hse _ hs0
    interval_cases s
    rfl
  | succ n ih =>
    intro s hse hall hs0
    rcases Nat.lt_or_ge s (n + 1) with hlt | hge
    · have hcn : c n = true := hall n (by omega) (by omega)
      rw [runStart, if_pos hcn]
      exact ih s (by omega) (fun j h1 h2 => hall j h1 (by omega)) hs0
    · have hs : s = n + 1 := by omega
      subst hs
      rcases hs0 with h0 | hfalse
      · omega
      · simp only [Nat.add_sub_cancel] at hfalse
        rw [runStart, hfalse]
        simp

theorem squeezeLoop_char (c : ℕ → Bool) :
    ∀ (l : List Bool) (i : ℕ) (inSq : Bool) (start : ℕ),
    (∀ k, k < l.length → l.getD k false = c (i + k)) →
    (inSq = if i = 0 then false else c (i - 1)) →
    (inSq = true → start = runStart c (i - 1)) →
    squeezeLoop l i inSq start =
      (List.range' i l.length).filterMap (completedRunEntry c) := by
  intro l
  induction l with
  | nil => intro i inSq start _ _ _; rfl
  | cons b rest ih =>
    intro i inSq start hsuf hflag hstart
    have hb : b = c i := by
      have := hsuf 0 (by simp)
      simpa using this
    have hrest : ∀ k, k < rest.length → rest.getD k false = c (i + 1 + k) := by
      intro k hk
      have := hsuf (k + 1) (by simp; omega)
      rw [List.getD_cons_succ] at this
      rw [this]
      congr 1
      omega
    have hi0 : inSq = true → i ≠ 0 := by
      intro htr h0
      rw [h0] at hflag
      simp [htr] at hflag
    subst hb
    simp only [List.length_cons, List.range'_succ]
    cases hci : c i with
    | true =>
      rw [List.filterMap_cons_none (completedRunEntry_none_of_true c i hci)]
      cases hsq : inSq with
      | false =>
        have hstep : squeezeLoop (true :: rest) i false start =
            squeezeLoop rest (i + 1) true i := by
          simp [squeezeLoop]
        rw [hstep]
        apply ih (i + 1) true i hrest
        · simp only [Nat.add_sub_cancel]
          rw [hci]
          simp
        · intro _
          simp only [Nat.add_sub_cancel]
          cases i with
          | zero => rfl
          | succ e =>
            have hce : c e = false := by
              rw [hsq] at hflag
              simp only [Nat.succ_ne_zero, if_neg, Nat.add_sub_cancel] at hflag
              exact hflag.symm
            rw [runStart, hce]
            simp
      | true =>
        have hstep : squeezeLoop (true :: rest) i true start =
            squeezeLoop rest (i + 1) true start := by
          simp [squeezeLoop]
        rw [hstep]
        apply ih (i + 1) true start hrest
        · simp only [Nat.add_sub_cancel]
          rw [hci]
          simp
        · intro _
          simp only [Nat.add_sub_cancel]
          have hne : i ≠ 0 := hi0 hsq
          obtain ⟨e, he⟩ := Nat.exists_eq_succ_of_ne_zero hne
          subst he
          have hce : c e = true := by
            rw [hsq] at hflag
            simp only [Nat.succ_ne_zero, if_neg, Nat.add_sub_cancel] at hflag
            exact hflag.symm
          rw [runStart, hce]
          have := hstart hsq
          simpa using this
    | false =>
      cases hsq : inSq with
      | true =>
        have hne : i ≠ 0 := hi0 hsq
        have hprev : c (i - 1) = true := by
          rw [hsq] at hflag
          rw [if_neg hne] at hflag
          exact hflag.symm
        rw [List.filterMap_cons_some
          (completedRunEntry_some c i (Nat.pos_of_ne_zero hne) hci hprev)]
        have hstep : squeezeLoop (false :: rest) i true start =
            (start, i - 1) :: squeezeLoop rest (i + 1) false start := by
          simp [squeezeLoop]
        rw [hstep, hstart hsq]
        congr 1
        apply ih (i + 1) false _ hrest
        · simp only [Nat.add_sub_cancel]
          rw [hci]
          simp
        · intro h
          exact absurd h (by simp)
      | false =>
        rw [List.filterMap_cons_none (completedRunEntry_none_of_prev c i
          (fun hpos => by
            rw [hsq] at hflag
            rw [if_neg (by omega)] at hflag
            exact hflag.symm))]
        have hstep : squeezeLoop (false :: rest) i false start =
            squeezeLoop rest (i + 1) false start := by
          simp [squeezeLoop]
        rw [hstep]
        apply ih (i + 1) false start hrest
        · simp only [Nat.add_sub_cancel]
          rw [hci]
          simp
        · intro h
          exact absurd h (by simp)

/-- C10: the squeeze episodes recorded by `analyze_squeeze_pattern` are exactly
the maximal runs of the squeeze condition that are followed by at least one bar
where the condition fails; every recorded episode ends strictly before the last
bar with the condition false right after it, so a squeeze still in progress at
the end of the series contributes zero episodes. -/
theorem analyze_squeeze_periods_spec (cond : List Bool) :
    analyze_squeeze_periods cond = completedRuns cond ∧
    ∀ p ∈ analyze_squeeze_periods cond,
      p.2 + 1 < cond.length ∧ cond.getD (p.2 + 1) false = false := by
  have hmain : analyze_squeeze_periods cond = completedRuns cond := by
    unfold analyze_squeeze_periods completedRuns
    rw [squeezeLoop_char (fun t => cond.getD t false) cond 0 false 0
      (by intro k _; rw [Nat.zero_add]) (by simp)
      (by intro h; exact absurd h (by simp))]
    rw [List.range_eq_range']
  refine ⟨hmain, ?_⟩
  intro p hp
  rw [hmain] at hp
  unfold completedRuns at hp
  rw [List.mem_filterMap] at hp
  obtain ⟨j, hj, hfj⟩ := hp
  rw [List.mem_range] at hj
  unfold completedRunEntry at hfj
  by_cases hc : 0 < j ∧ cond.getD j false = false ∧ cond.getD (j - 1) false = true
  · rw [if_pos hc] at hfj
    have hp2 : p.2 = j - 1 := by
      rw [← Option.some_inj.mp hfj]
    have hj1 : p.2 + 1 = j := by omega
    rw [hj1]
    exact ⟨hj, hc.2.1⟩
  · rw [if_neg hc] at hfj
    exact absurd hfj (by simp)

/-! ## Risk metrics (`src/analysis/statistics.py`)

`calculate_risk_metrics` computes `cumulative_returns = (1 + returns).cumprod()`,
`rolling_max = cumulative_returns.expanding().max()`,
`drawdown = (cumulative_returns - rolling_max) / rolling_max`,
`max_drawdown = drawdown.min() * 100`. The division and the skip-NaN minimum are
modelled with the float semantics of `RFloat`. -/

/-- `(1 + returns).cumprod()` with running accumulator. -/
def cumProdAux (acc : ℚ) : List ℚ → List ℚ
  | [] => []
  | r :: rest => (acc * (1 + r)) :: cumProdAux (acc * (1 + r)) rest

/-- `(1 + returns).cumprod()`. -/
def cumProd (rs : List ℚ) : List ℚ := cumProdAux 1 rs

/-- `expanding().max()` with running accumulator. -/
def runningMaxAux (m : ℚ) : List ℚ → List ℚ
  | [] => []
  | x :: rest => max m x :: runningMaxAux (max m x) rest

/-- `expanding().max()`. -/
def runningMax : List ℚ → List ℚ
  | [] => []
  | x :: rest => runningMaxAux x (x :: rest)

/-- `(cumulative_returns - rolling_max) / rolling_max` elementwise. -/
def drawdownList (rs : List ℚ) : List RFloat :=
  List.zipWith
    (fun cu m => RFloat.fdiv (RFloat.val (cu - m)) (RFloat.val m))
    (cumProd rs) (runningMax (cumProd rs))

/-- One step of the pandas skip-NaN minimum: NaN entries are skipped, a NaN
accumulator is replaced by the first non-NaN entry. -/
def fminAcc : RFloat → RFloat → RFloat
  | acc, RFloat.nan => acc
  | RFloat.nan, x => x
  | acc, x => if RFloat.fle acc x then acc else x

/-- Pandas `Series.min()` with default `skipna=True`: NaN when the series is
empty or all entries are NaN. -/
def seriesMin (l : List RFloat) : RFloat := l.foldl fminAcc RFloat.nan

/-- `max_drawdown = drawdown.min() * 100` from `calculate_risk_metrics`. -/
def max_drawdown (rs : List ℚ) : RFloat :=
  RFloat.scale 100 (seriesMin (drawdownList rs))

theorem fminAcc_le_zero (acc x : RFloat)
    (h : RFloat.fle acc (RFloat.val 0) = true) :
    RFloat.fle (fminAcc acc x) (RFloat.val 0) = true := by
  cases acc with
  | nan => simp [RFloat.fle] at h
  | posInf => simp [RFloat.fle] at h
  | negInf => cases x <;> simp [fminAcc, RFloat.fle]
  | val a =>
    have ha : a ≤ 0 := by simpa [RFloat.fle] using h
    cases x with
    | nan => simpa [fminAcc, RFloat.fle] using ha
    | posInf => simpa [fminAcc, RFloat.fle] using ha
    | negInf => simp [fminAcc, RFloat.fle]
    | val b =>
      simp only [fminAcc]
      split_ifs with hab
      · simpa [RFloat.fle] using ha
      · have hba : b < a := by
          simpa [RFloat.fle] using hab
        simp only [RFloat.fle, decide_eq_true_eq]
        linarith

theorem foldl_fminAcc_le_zero :
    ∀ (tail : List RFloat) (acc : RFloat),
    RFloat.fle acc (RFloat.val 0) = true →
    RFloat.fle (tail.foldl fminAcc acc) (RFloat.val 0) = true := by
  intro tail
  induction tail with
  | nil => intro acc h; exact h
  | cons x rest ih =>
    intro acc h
    exact ih (fminAcc acc x) (fminAcc_le_zero acc x h)

theorem foldl_fminAcc_zeros :
    ∀ (tail : List RFloat),
    (∀ x ∈ tail, x = RFloat.nan ∨ x = RFloat.val 0) →
    tail.foldl fminAcc (RFloat.val 0) = RFloat.val 0 := by
  intro tail
  induction tail with
  | nil => intro _; rfl
  | cons x rest ih =>
    intro hall
    have hrest : ∀ y ∈ rest, y = RFloat.nan ∨ y = RFloat.val 0 :=
      fun y hy => hall y (by simp [hy])
    rcases hall x (by simp) with hx | hx <;> rw [List.foldl_cons, hx]
    · exact ih hrest
    · have hmin : fminAcc (RFloat.val 0) (RFloat.val 0) = RFloat.val 0 := by
        simp [fminAcc, RFloat.fle]
      rw [hmin]
      exact ih hrest

theorem runningMaxAux_of_chain :
    ∀ (l : List ℚ) (m : ℚ), List.Chain (· ≤ ·) m l → runningMaxAux m l = l := by
  intro l
  induction l with
  | nil => intro m _; rfl
  | cons x rest ih =>
    intro m hch
    rcases List.chain_cons.mp hch with ⟨hmx, hrest⟩
    rw [runningMaxAux, max_eq_right hmx]
    rw [ih x hrest]

theorem scale_fle_zero (x : RFloat) (h : RFloat.fle x (RFloat.val 0) = true) :
    RFloat.fle (RFloat.scale 100 x) (RFloat.val 0) = true := by
  cases x with
  | nan => simp [RFloat.fle] at h
  | posInf => simp [RFloat.fle] at h
  | negInf => simp [RFloat.scale, RFloat.fle]
  | val a =>
    simp only [RFloat.scale, RFloat.fle, decide_eq_true_eq] at h ⊢
    nlinarith

/-- C6 counterexample: at the return series `[-1]` (the close falls to zero on
the first bar) the computed max drawdown is NaN, which is neither `≤ 0` nor `0`,
although the cumulative-return curve `[0]` is trivially non-decreasing. -/
theorem max_drawdown_claim_counterexample :
    max_drawdown [-1] = RFloat.nan ∧
    RFloat.fle (max_drawdown [-1]) (RFloat.val 0) = false ∧
    List.Chain' (· ≤ ·) (cumProd [-1]) ∧
    max_drawdown [-1] ≠ RFloat.val 0 := by
  have hc : cumProd [-1] = [0] := by norm_num [cumProd, cumProdAux]
  have hdd1 : drawdownList [-1] =
      [RFloat.fdiv
        (RFloat.val (1 * (1 + -1) - max (1 * (1 + -1)) (1 * (1 + -1))))
        (RFloat.val (max (1 * (1 + -1)) (1 * (1 + -1))))] := rfl
  have hx : RFloat.fdiv
      (RFloat.val (1 * (1 + -1) - max (1 * (1 + -1)) (1 * (1 + -1))))
      (RFloat.val (max (1 * (1 + -1)) (1 * (1 + -1)))) = RFloat.nan := by
    norm_num [RFloat.fdiv]
  have hmd : max_drawdown [-1] = RFloat.nan := by
    unfold max_drawdown seriesMin
    rw [hdd1, hx]
    rfl
  refine ⟨hmd, by rw [hmd]; rfl, ?_, by rw [hmd]; intro hcon; cases hcon⟩
  rw [hc]
  simp

/-- C6 (amended): for every nonempty return series whose first return is not
exactly −100 % (so the compounded curve does not start at 0), the reported max
drawdown is `≤ 0`, and it is exactly 0 whenever the cumulative-return curve is
monotonically non-decreasing; at an empty series or a first return of −100 % the
drawdown series is all-NaN and the reported value is NaN. -/
theorem max_drawdown_nonpos (rs : List ℚ) (hne : rs ≠ [])
    (h0 : 1 + rs.headD 0 ≠ 0) :
    RFloat.fle (max_drawdown rs) (RFloat.val 0) = true ∧
    (List.Chain' (· ≤ ·) (cumProd rs) → max_drawdown rs = RFloat.val 0) := by
  obtain ⟨r, rest, rfl⟩ := List.exists_cons_of_ne_nil hne
  have hr : (1 : ℚ) + r ≠ 0 := by simpa using h0
  have hc0ne : (1 : ℚ) * (1 + r) ≠ 0 := by rw [one_mul]; exact hr
  have hdd : drawdownList (r :: rest) =
      RFloat.fdiv
        (RFloat.val (1 * (1 + r) - max (1 * (1 + r)) (1 * (1 + r))))
        (RFloat.val (max (1 * (1 + r)) (1 * (1 + r)))) ::
      List.zipWith
        (fun cu m => RFloat.fdiv (RFloat.val (cu - m)) (RFloat.val m))
        (cumProdAux (1 * (1 + r)) rest)
        (runningMaxAux (max (1 * (1 + r)) (1 * (1 + r)))
          (cumProdAux (1 * (1 + r)) rest)) := rfl
  have hhead : RFloat.fdiv
      (RFloat.val (1 * (1 + r) - max (1 * (1 + r)) (1 * (1 + r))))
      (RFloat.val (max (1 * (1 + r)) (1 * (1 + r)))) = RFloat.val 0 := by
    rw [max_self, sub_self]
    simp [RFloat.fdiv, hr]
  constructor
  · unfold max_drawdown seriesMin
    rw [hdd, hhead, List.foldl_cons]
    have hstep : fminAcc RFloat.nan (RFloat.val 0) = RFloat.val 0 := rfl
    rw [hstep]
    exact scale_fle_zero _ (foldl_fminAcc_le_zero _ _ (by simp [RFloat.fle]))
  · intro hchain
    have hchain2 : List.Chain (· ≤ ·) (1 * (1 + r))
        (cumProdAux (1 * (1 + r)) rest) := hchain
    have hrmAux : runningMaxAux (1 * (1 + r)) (cumProdAux (1 * (1 + r)) rest) =
        cumProdAux (1 * (1 + r)) rest :=
      runningMaxAux_of_chain _ _ hchain2
    have hdd2 : drawdownList (r :: rest) =
        RFloat.val 0 ::
        List.zipWith
          (fun cu m => RFloat.fdiv (RFloat.val (cu - m)) (RFloat.val m))
          (cumProdAux (1 * (1 + r)) rest) (cumProdAux (1 * (1 + r)) rest) := by
      rw [hdd, hhead, max_self, hrmAux]
    have hall : ∀ y ∈ List.zipWith
        (fun cu m => RFloat.fdiv (RFloat.val (cu - m)) (RFloat.val m))
        (cumProdAux (1 * (1 + r)) rest) (cumProdAux (1 * (1 + r)) rest),
        y = RFloat.nan ∨ y = RFloat.val 0 := by
      intro y hy
      rw [List.zipWith_same, List.mem_map] at hy
      obtain ⟨x, -, rfl⟩ := hy
      by_cases hx : x = 0
      · left
        simp [RFloat.fdiv, hx]
      · right
        simp [RFloat.fdiv, sub_self, hx]
    unfold max_drawdown seriesMin
    rw [hdd2, List.foldl_cons]
    have hstep : fminAcc RFloat.nan (RFloat.val 0) = RFloat.val 0 := rfl
    rw [hstep, foldl_fminAcc_zeros _ hall]
    simp [RFloat.scale]

/-- Witness for C6 (amended) at the return series `[0]`: the curve is constant
at 1, the max drawdown is 0. -/
theorem max_drawdown_nonpos_witness :
    RFloat.fle (max_drawdown [0]) (RFloat.val 0) = true ∧
    (List.Chain' (· ≤ ·) (cumProd [0]) → max_drawdown [0] = RFloat.val 0) :=
  max_drawdown_nonpos [0] (by decide) (by norm_num)

/-! ## RSI (`src/indicators/kdj_rsi.py`, `calculate_rsi` via TA-Lib `RSI`)

`tb.RSI` is an external TA-Lib routine; it is embedded by its documented
Wilder-smoothing algorithm: the gain/loss averages are seeded with the simple
averages of the first `period` one-step moves, then smoothed as
`avg = (prev·(period−1) + current)/period`; the output at each defined index is
`100·gain/(gain+loss)`, and `0` when `gain+loss = 0`. -/

/-- One-step close difference `close[j+1] - close[j]`. -/
def diffAt (close : List ℚ) (j : ℕ) : ℚ :=
  close.getD (j + 1) 0 - close.getD j 0

/-- Wilder-smoothed (average gain, average loss) after `k` smoothing steps
beyond the seed: the seed (`k = 0`) averages the first `p` moves, step `k+1`
folds in the move ending at bar `p + k + 1`. -/
def wilderGL (close : List ℚ) (p : ℕ) : ℕ → ℚ × ℚ
  | 0 =>
    (((List.range p).map (fun j => max (diffAt close j) 0)).sum / p,
     ((List.range p).map (fun j => max (-diffAt close j) 0)).sum / p)
  | k + 1 =>
    ((((wilderGL close p k).1 * ((p : ℚ) - 1) + max (diffAt close (p + k)) 0) / p),
     (((wilderGL close p k).2 * ((p : ℚ) - 1) + max (-diffAt close (p + k)) 0) / p))

/-- `tb.RSI(close, p)` at index `t`: NaN (`none`) during the warm-up `t < p` or
out of range; otherwise `100·gain/(gain+loss)`, `0` when `gain+loss = 0`. -/
def rsiAt (close : List ℚ) (p t : ℕ) : Option ℚ :=
  if p ≤ t ∧ t < close.length then
    some
      (if (wilderGL close p (t - p)).1 + (wilderGL close p (t - p)).2 = 0 then 0
       else 100 * ((wilderGL close p (t - p)).1 /
         ((wilderGL close p (t - p)).1 + (wilderGL close p (t - p)).2)))
  else none

/-- C5 counterexample: on the flat series `[1, 1, 1]` with period 2, at index 2
(past the warm-up) the Wilder average loss is 0, yet the computed RSI is 0, not
100. -/
theorem rsi_avg_loss_zero_counterexample :
    (wilderGL [1, 1, 1] 2 (2 - 2)).2 = 0 ∧
    rsiAt [1, 1, 1] 2 2 = some 0 ∧
    rsiAt [1, 1, 1] 2 2 ≠ some 100 := by
  have hgl : wilderGL [1, 1, 1] 2 0 = (0, 0) := by
    norm_num [wilderGL, diffAt, List.range_succ]
  have hrsi : rsiAt [1, 1, 1] 2 2 = some 0 := by
    unfold rsiAt
    rw [if_pos ⟨by norm_num, by norm_num⟩]
    norm_num [hgl]
  refine ⟨by norm_num [hgl], hrsi, ?_⟩
  rw [hrsi]
  intro hcon
  have := Option.some_inj.mp hcon
  norm_num at this

/-- C5 (amended): past the warm-up window, whenever the Wilder average loss is
zero, the RSI value is defined (no error): it equals 100 when the average gain
is nonzero (some up move in the smoothed history), and 0 when the average gain
is also zero (completely flat history, where TA-Lib outputs 0 rather than the
spec's 100). -/
theorem rsi_avg_loss_zero (close : List ℚ) (p t : ℕ)
    (hwarm : p ≤ t) (ht : t < close.length)
    (hloss : (wilderGL close p (t - p)).2 = 0) :
    rsiAt close p t =
      some (if (wilderGL close p (t - p)).1 = 0 then 0 else 100) := by
  unfold rsiAt
  rw [if_pos ⟨hwarm, ht⟩, hloss, add_zero]
  by_cases hg : (wilderGL close p (t - p)).1 = 0
  · rw [if_pos hg, if_pos hg]
  · rw [if_neg hg, if_neg hg, div_self hg, mul_one]

/-- Witness for C5 (amended) at the rising series `[1, 2, 3]`, period 2,
index 2: average loss 0, average gain 1, RSI = 100. -/
theorem rsi_avg_loss_zero_witness :
    rsiAt [1, 2, 3] 2 2 =
      some (if (wilderGL [1, 2, 3] 2 (2 - 2)).1 = 0 then 0 else 100) :=
  rsi_avg_loss_zero [1, 2, 3] 2 2 (by norm_num) (by norm_num)
    (by norm_num [wilderGL, diffAt, List.range_succ])

/-! ## Bollinger bands and %B (`src/indicators/bollinger.py`)

`calculate_bollinger_bands` calls the external TA-Lib `BBANDS` with `matype=0`:
middle = SMA(period), upper/lower = middle ± k·σ where σ is the rolling
population standard deviation (computed by TA-Lib as mean of squares minus
square of the mean, then a square root). Square roots are irrational in general,
so the embedding carries σ as a parameter constrained in the theorems by
`σ ≥ 0` and `σ·σ = rollingVar`. `calculate_percent_b` then computes
`%B = (close - lower) / (upper - lower)` in pandas float arithmetic. -/

/-- The trailing window of `p` closes ending at index `i`. -/
def windowAt (close : List ℚ) (p i : ℕ) : List ℚ :=
  (close.take (i + 1)).drop (i + 1 - p)

/-- Rolling mean (SMA) at index `i`; NaN during the warm-up. -/
def rollingMean (close : List ℚ) (p i : ℕ) : Option ℚ :=
  if p ≤ i + 1 ∧ i < close.length then some ((windowAt close p i).sum / p)
  else none

/-- Rolling population variance at index `i` as TA-Lib `STDDEV` computes it:
mean of squares minus square of the mean. -/
def rollingVar (close : List ℚ) (p i : ℕ) : Option ℚ :=
  if p ≤ i + 1 ∧ i < close.length then
    some (((windowAt close p i).map (fun x => x * x)).sum / p -
      ((windowAt close p i).sum / p) * ((windowAt close p i).sum / p))
  else none

/-- Upper band `middle + k·σ`. -/
def bbUpper (close : List ℚ) (p : ℕ) (k : ℚ) (σ : ℕ → ℚ) (i : ℕ) : Option ℚ :=
  (rollingMean close p i).map (fun m => m + k * σ i)

/-- Lower band `middle − k·σ`. -/
def bbLower (close : List ℚ) (p : ℕ) (k : ℚ) (σ : ℕ → ℚ) (i : ℕ) : Option ℚ :=
  (rollingMean close p i).map (fun m => m - k * σ i)

/-- `calculate_percent_b`: `%B[i] = (close[i] - lower[i]) / (upper[i] - lower[i])`
with NaN propagation from the band warm-up and float division semantics. -/
def percent_b (close : List ℚ) (p : ℕ) (k : ℚ) (σ : ℕ → ℚ) (i : ℕ) : RFloat :=
  match bbUpper close p k σ i, bbLower close p k σ i with
  | some u, some l =>
    RFloat.fdiv (RFloat.val (close.getD i 0 - l)) (RFloat.val (u - l))
  | _, _ => RFloat.nan

theorem sum_sq_dev (w : List ℚ) (m : ℚ) :
    (w.map (fun x => (x - m) * (x - m))).sum =
      (w.map (fun x => x * x)).sum - 2 * m * w.sum + (w.length : ℚ) * (m * m) := by
  induction w with
  | nil => simp
  | cons x xs ih =>
    simp only [List.map_cons, List.sum_cons, List.length_cons, ih]
    push_cast
    ring

theorem sum_map_sq_nonneg (w : List ℚ) (m : ℚ) :
    0 ≤ (w.map (fun x => (x - m) * (x - m))).sum := by
  induction w with
  | nil => simp
  | cons x xs ih =>
    simp only [List.map_cons, List.sum_cons]
    nlinarith [mul_self_nonneg (x - m)]

theorem all_eq_of_sum_sq_zero (w : List ℚ) (m : ℚ)
    (h : (w.map (fun x => (x - m) * (x - m))).sum = 0) :
    ∀ x ∈ w, x = m := by
  induction w with
  | nil => simp
  | cons y xs ih =>
    simp only [List.map_cons, List.sum_cons] at h
    have h1 : 0 ≤ (y - m) * (y - m) := mul_self_nonneg _
    have h2 : 0 ≤ (xs.map (fun x => (x - m) * (x - m))).sum :=
      sum_map_sq_nonneg xs m
    have hy : (y - m) * (y - m) = 0 := by linarith
    have hxs : (xs.map (fun x => (x - m) * (x - m))).sum = 0 := by linarith
    intro x hx
    rcases List.mem_cons.mp hx with rfl | hx2
    · have := mul_self_eq_zero.mp hy
      linarith
    · exact ih hxs x hx2

theorem windowAt_length (close : List ℚ) (p i : ℕ) (hp : p ≤ i + 1)
    (hi : i < close.length) : (windowAt close p i).length = p := by
  unfold windowAt
  rw [List.length_drop, List.length_take]
  omega

theorem close_mem_windowAt (close : List ℚ) (p i : ℕ) (hp : 1 ≤ p)
    (hpi : p ≤ i + 1) (hi : i < close.length) :
    close.getD i 0 ∈ windowAt close p i := by
  have hlen : (windowAt close p i).length = p := windowAt_length close p i hpi hi
  have hidx : p - 1 < (windowAt close p i).length := by omega
  have hval : (windowAt close p i).getD (p - 1) 0 = close.getD i 0 := by
    rw [List.getD_eq_getElem _ _ hidx]
    unfold windowAt
    rw [List.getElem_drop, List.getElem_take,
      List.getD_eq_getElem _ _ hi]
    have hix : i + 1 - p + (p - 1) = i := by omega
    simp only [hix]
  have hmem : (windowAt close p i).getD (p - 1) 0 ∈ windowAt close p i := by
    rw [List.getD_eq_getElem _ _ hidx]
    exact List.getElem_mem hidx
  rw [hval] at hmem
  exact hmem

/-- C4: at every index where the Bollinger upper and lower bands are defined and
equal (zero-width band), the %B value is NaN (undefined) rather than an infinity
or an error: the zero-width band forces σ = 0, hence a constant window whose
last element — the close itself — equals the band value, so the division is
`0/0 = NaN`. -/
theorem percent_b_zero_width (close : List ℚ) (p : ℕ) (k : ℚ) (σ : ℕ → ℚ)
    (hp : 1 ≤ p) (hk : 0 < k)
    (hσ : ∀ i v, rollingVar close p i = some v → 0 ≤ σ i ∧ σ i * σ i = v)
    (i : ℕ) (u l : ℚ) (hu : bbUpper close p k σ i = some u)
    (hl : bbLower close p k σ i = some l) (heq : u = l) :
    percent_b close p k σ i = RFloat.nan := by
  have hu0 := hu
  have hl0 := hl
  unfold bbUpper at hu
  unfold bbLower at hl
  cases hm : rollingMean close p i with
  | none => rw [hm] at hu; exact absurd hu (by simp)
  | some m =>
    rw [hm] at hu hl
    simp only [Option.map_some'] at hu hl
    have hu2 : u = m + k * σ i := (Option.some_inj.mp hu).symm
    have hl2 : l = m - k * σ i := (Option.some_inj.mp hl).symm
    have hσ0 : σ i = 0 := by
      have hks : k * σ i = 0 := by
        rw [hu2, hl2] at heq
        linarith
      rcases mul_eq_zero.mp hks with h | h
      · exact absurd h (ne_of_gt hk)
      · exact h
    have hcond : p ≤ i + 1 ∧ i < close.length := by
      by_contra hcon
      unfold rollingMean at hm
      rw [if_neg hcon] at hm
      exact absurd hm (by simp)
    have hvar : rollingVar close p i = some
        (((windowAt close p i).map (fun x => x * x)).sum / p -
          ((windowAt close p i).sum / p) * ((windowAt close p i).sum / p)) := by
      unfold rollingVar
      rw [if_pos hcond]
    obtain ⟨-, hσsq⟩ := hσ i _ hvar
    rw [hσ0, mul_zero] at hσsq
    have hm2 : m = (windowAt close p i).sum / p := by
      unfold rollingMean at hm
      rw [if_pos hcond] at hm
      exact (Option.some_inj.mp hm).symm
    have hplen : ((windowAt close p i).length : ℚ) = (p : ℚ) := by
      rw [windowAt_length close p i hcond.1 hcond.2]
    have hppos : (0 : ℚ) < (p : ℚ) := by
      have : 0 < p := hp
      exact_mod_cast this
    have hpne : (p : ℚ) ≠ 0 := ne_of_gt hppos
    have hsum : (windowAt close p i).sum = (p : ℚ) * m := by
      rw [hm2]
      field_simp
    have hS2 : ((windowAt close p i).map (fun x => x * x)).sum =
        (p : ℚ) * (m * m) := by
      rw [← hm2] at hσsq
      have h0 : ((windowAt close p i).map (fun x => x * x)).sum / p = m * m := by
        linarith
      field_simp at h0
      linarith
    have hzero : ((windowAt close p i).map (fun x => (x - m) * (x - m))).sum
        = 0 := by
      rw [sum_sq_dev _ m, hsum, hplen, hS2]
      ring
    have hclose : close.getD i 0 = m :=
      all_eq_of_sum_sq_zero _ m hzero _
        (close_mem_windowAt close p i hp hcond.1 hcond.2)
    unfold percent_b
    rw [hu0, hl0]
    have hnum : close.getD i 0 - l = 0 := by
      rw [hclose, hl2, hσ0]
      ring
    have hden : u - l = 0 := by
      rw [heq]
      ring
    show RFloat.fdiv (RFloat.val (close.getD i 0 - l)) (RFloat.val (u - l)) =
      RFloat.nan
    rw [hnum, hden]
    simp [RFloat.fdiv]

/-- Witness for C4 at the one-bar series `[5]` with period 1 and k = 2: the
window is constant, σ = 0, both bands equal 5, and %B evaluates to NaN. -/
theorem percent_b_zero_width_witness :
    percent_b [5] 1 2 (fun _ => 0) 0 = RFloat.nan :=
  percent_b_zero_width [5] 1 2 (fun _ => 0) (by norm_num) (by norm_num)
    (by
      intro i v h
      refine ⟨le_refl 0, ?_⟩
      unfold rollingVar at h
      by_cases hc : 1 ≤ i + 1 ∧ i < ([5] : List ℚ).length
      · rw [if_pos hc] at h
        have hi0 : i = 0 := by
          have := hc.2
          simp at this
          omega
        subst hi0
        have hwin : windowAt [5] 1 0 = [5] := rfl
        rw [hwin] at h
        have hv := Option.some_inj.mp h
        rw [← hv]
        norm_num
      · rw [if_neg hc] at h
        exact absurd h (by simp))
    0 5 5
    (by
      unfold bbUpper rollingMean
      rw [if_pos ⟨by norm_num, by norm_num⟩]
      have hwin : windowAt [5] 1 0 = [5] := rfl
      rw [hwin]
      norm_num)
    (by
      unfold bbLower rollingMean
      rw [if_pos ⟨by norm_num, by norm_num⟩]
      have hwin : windowAt [5] 1 0 = [5] := rfl
      rw [hwin]
      norm_num)
    rfl

/-! ## Calculator object state (`src/indicators/bollinger.py`, `src/indicators/kdj_rsi.py`)

Each indicator class copies the input DataFrame in `__init__`
(`self.data = data.copy()`), extracts price arrays
(`data['Close'].values.astype(np.float64)`, itself a copy), and each
`calculate_*` method recomputes from those arrays, stores the result in the
object dictionary and writes the derived columns into the object's private
DataFrame copy. A DataFrame is a list of named columns. -/

/-- A pandas DataFrame: named columns over a shared row index. -/
structure DataFrame where
  cols : List (String × List (Option ℚ))
deriving DecidableEq

/-- Column read (`df[name]`); missing columns read as empty. -/
def DataFrame.getCol (df : DataFrame) (name : String) : List (Option ℚ) :=
  (df.cols.lookup name).getD []

/-- Column assignment `df[name] = series`: replace in place or append. -/
def setColAux (name : String) (s : List (Option ℚ)) :
    List (String × List (Option ℚ)) → List (String × List (Option ℚ))
  | [] => [(name, s)]
  | (m, v) :: rest =>
    if m = name then (name, s) :: rest else (m, v) :: setColAux name s rest

/-- `df[name] = series` on the DataFrame wrapper. -/
def DataFrame.setCol (df : DataFrame) (name : String) (s : List (Option ℚ)) :
    DataFrame :=
  ⟨setColAux name s df.cols⟩

/-- The full middle-band / SMA series over an index range. -/
def middleSeries (close : List ℚ) (p : ℕ) : List (Option ℚ) :=
  (List.range close.length).map (fun i => rollingMean close p i)

/-- The full upper-band series. -/
def bbUpperSeries (close : List ℚ) (p : ℕ) (k : ℚ) (σ : ℕ → ℚ) :
    List (Option ℚ) :=
  (List.range close.length).map (fun i => bbUpper close p k σ i)

/-- The full lower-band series. -/
def bbLowerSeries (close : List ℚ) (p : ℕ) (k : ℚ) (σ : ℕ → ℚ) :
    List (Option ℚ) :=
  (List.range close.length).map (fun i => bbLower close p k σ i)

/-- The `BollingerBands` object: private DataFrame copy, close array, cached
`bollinger_data` dictionary (empty at construction). -/
structure BollingerBands where
  data : DataFrame
  close : List ℚ
  bollinger_data : List (String × List (Option ℚ))

/-- `BollingerBands.calculate_bollinger_bands(period, std_dev)`: computes the
three bands from `self.close` (σ abstracts TA-Lib's rolling standard
deviation), stores them in `self.bollinger_data` and as columns of `self.data`,
and returns the dictionary. -/
def BollingerBands.calculate_bollinger_bands (self : BollingerBands) (p : ℕ)
    (k : ℚ) (σ : ℕ → ℚ) :
    (List (String × List (Option ℚ))) × BollingerBands :=
  let upper := bbUpperSeries self.close p k σ
  let middle := middleSeries self.close p
  let lower := bbLowerSeries self.close p k σ
  let bd := [("BB_Upper", upper), ("BB_Middle", middle), ("BB_Lower", lower)]
  (bd,
   { self with
     bollinger_data := bd,
     data := ((self.data.setCol "BB_Upper" upper).setCol "BB_Middle"
       middle).setCol "BB_Lower" lower })

/-- Raw stochastic %K at index `i` (TA-Lib `STOCH` fast %K, modelled by the
spec formula `100·(close − lowest_low)/(highest_high − lowest_low)`; a
zero-range window yields 0, matching TA-Lib's guarded division). -/
def rawK (high low close : List ℚ) (p i : ℕ) : Option ℚ :=
  if p ≤ i + 1 ∧ i < close.length then
    some (100 * (close.getD i 0 - (windowAt low p i).foldl min (low.getD i 0)) /
      ((windowAt high p i).foldl max (high.getD i 0) -
        (windowAt low p i).foldl min (low.getD i 0)))
  else none

/-- Sum of an Option-valued window: NaN if any entry is NaN. -/
def optSum : List (Option ℚ) → Option ℚ
  | [] => some 0
  | x :: rest =>
    match x, optSum rest with
    | some a, some b => some (a + b)
    | _, _ => none

/-- SMA of an Option-valued series (NaN-propagating). -/
def smaOpt (s : List (Option ℚ)) (p : ℕ) : List (Option ℚ) :=
  (List.range s.length).map (fun i =>
    if p ≤ i + 1 then (optSum ((s.take (i + 1)).drop (i + 1 - p))).map
      (fun x => x / (p : ℚ))
    else none)

/-- Slow %K and %D of TA-Lib `STOCH`: SMA smoothing of raw %K, then of slow %K. -/
def stochKD (high low close : List ℚ) (fastk slowk slowd : ℕ) :
    List (Option ℚ) × List (Option ℚ) :=
  let raw := (List.range close.length).map (fun i => rawK high low close fastk i)
  let kSeries := smaOpt raw slowk
  (kSeries, smaOpt kSeries slowd)

/-- The `KDJIndicator` object. -/
structure KDJIndicator where
  data : DataFrame
  high : List ℚ
  low : List ℚ
  close : List ℚ
  kdj_data : List (String × List (Option ℚ))

/-- `KDJIndicator.calculate_kdj(fastk, slowk, slowd)`: K and D from `STOCH`,
`J = 3K − 2D`, stored in `self.kdj_data` and written into `self.data`. -/
def KDJIndicator.calculate_kdj (self : KDJIndicator)
    (fastk slowk slowd : ℕ) :
    (List (String × List (Option ℚ))) × KDJIndicator :=
  let kd := stochKD self.high self.low self.close fastk slowk slowd
  let j := List.zipWith
    (fun kv dv => match kv, dv with
      | some a, some b => some (3 * a - 2 * b)
      | _, _ => none) kd.1 kd.2
  let out := [("K", kd.1), ("D", kd.2), ("J", j)]
  (out,
   { self with
     kdj_data := out,
     data := ((self.data.setCol "K" kd.1).setCol "D" kd.2).setCol "J" j })

/-- C8: invoking a calculator twice in succession on the same instance with the
same parameters and no intervening mutation yields identical output series:
shown for `calculate_bollinger_bands` and `calculate_kdj`, whose second call
recomputes from the unchanged price arrays of the updated object state. -/
theorem calculators_idempotent (bb : BollingerBands) (p : ℕ) (k : ℚ)
    (σ : ℕ → ℚ) (kdj : KDJIndicator) (fastk slowk slowd : ℕ) :
    ((bb.calculate_bollinger_bands p k σ).2.calculate_bollinger_bands p k σ).1 =
      (bb.calculate_bollinger_bands p k σ).1 ∧
    ((kdj.calculate_kdj fastk slowk slowd).2.calculate_kdj fastk slowk
      slowd).1 = (kdj.calculate_kdj fastk slowk slowd).1 :=
  ⟨rfl, rfl⟩

/-! ## Frame property: calculators never mutate the caller's DataFrame

Python objects alias: `self.data = data` would let later column writes reach the
caller. The classes instead copy (`data.copy()`, `.values.astype(np.float64)`).
The heap of live DataFrames is a list addressed by reference index; `__init__`
allocates a fresh cell holding a copy of the caller's frame, and every column
write of the calculators targets only that fresh cell. -/

/-- `BollingerBands.__init__(data)` in heap form: allocate a copy of the
caller's frame at a fresh reference, extract the close array by value. -/
def bollinger_init (heap : List DataFrame) (r : ℕ) :
    List DataFrame × (ℕ × List ℚ) :=
  (heap ++ [heap.getD r ⟨[]⟩],
   (heap.length, ((heap.getD r ⟨[]⟩).getCol "Close").map (fun x => x.getD 0)))

/-- The heap effect of `calculate_bollinger_bands` on a heap-allocated object
`(dataRef, close)`: the three band columns are written into the object's own
frame only. -/
def bollinger_calculate (heap : List DataFrame) (ob : ℕ × List ℚ) (p : ℕ)
    (k : ℚ) (σ : ℕ → ℚ) : List DataFrame :=
  heap.set ob.1
    ((((heap.getD ob.1 ⟨[]⟩).setCol "BB_Upper"
        (bbUpperSeries ob.2 p k σ)).setCol "BB_Middle"
        (middleSeries ob.2 p)).setCol "BB_Lower" (bbLowerSeries ob.2 p k σ))

/-- `MovingAverageSystem.__init__(data)` in heap form: identical copy
discipline. -/
def ma_init (heap : List DataFrame) (r : ℕ) : List DataFrame × (ℕ × List ℚ) :=
  (heap ++ [heap.getD r ⟨[]⟩],
   (heap.length, ((heap.getD r ⟨[]⟩).getCol "Close").map (fun x => x.getD 0)))

/-- `MovingAverageSystem.calculate_sma(periods)`: reads `self.close` and
returns a fresh dictionary of SMA series; it performs no heap write at all. -/
def ma_calculate_sma (ob : ℕ × List ℚ) (periods : List ℕ) :
    List (String × List (Option ℚ)) :=
  periods.map (fun p => ("SMA_" ++ toString p, middleSeries ob.2 p))

/-- C9: after constructing a `BollingerBands` object and running its band
calculation, and after constructing a `MovingAverageSystem` (whose
`calculate_sma` performs no frame write by construction), the caller's
DataFrame cell is bit-identical to what it was: the object writes only to its
private copy, allocated at a fresh reference distinct from the caller's. -/
theorem calculators_no_caller_mutation (heap : List DataFrame) (r : ℕ)
    (hr : r < heap.length) (p : ℕ) (k : ℚ) (σ : ℕ → ℚ) :
    ((bollinger_calculate (bollinger_init heap r).1 (bollinger_init heap r).2
        p k σ).getD r ⟨[]⟩ = heap.getD r ⟨[]⟩) ∧
    ((bollinger_init heap r).2.1 ≠ r) ∧
    ((bollinger_init heap r).1.getD r ⟨[]⟩ = heap.getD r ⟨[]⟩) ∧
    ((ma_init heap r).1.getD r ⟨[]⟩ = heap.getD r ⟨[]⟩) := by
  have hne : heap.length ≠ r := by omega
  have happ : (heap ++ [heap.getD r ⟨[]⟩]).getD r ⟨[]⟩ = heap.getD r ⟨[]⟩ := by
    rw [List.getD_eq_getElem?_getD, List.getElem?_append_left hr,
      ← List.getD_eq_getElem?_getD]
  refine ⟨?_, hne, happ, happ⟩
  unfold bollinger_calculate bollinger_init
  rw [List.getD_eq_getElem?_getD, List.getElem?_set_ne hne,
    List.getElem?_append_left hr, ← List.getD_eq_getElem?_getD]

/-- Witness for C9 at a one-frame heap holding a single-column DataFrame. -/
theorem calculators_no_caller_mutation_witness :
    ((bollinger_calculate
        (bollinger_init [⟨[("Close", [some 1])]⟩] 0).1
        (bollinger_init [⟨[("Close", [some 1])]⟩] 0).2 1 2 (fun _ => 0)).getD
        0 ⟨[]⟩ = ([⟨[("Close", [some 1])]⟩] : List DataFrame).getD 0 ⟨[]⟩) ∧
    ((bollinger_init [⟨[("Close", [some 1])]⟩] 0).2.1 ≠ 0) ∧
    ((bollinger_init [⟨[("Close", [some 1])]⟩] 0).1.getD 0 ⟨[]⟩ =
      ([⟨[("Close", [some 1])]⟩] : List DataFrame).getD 0 ⟨[]⟩) ∧
    ((ma_init [⟨[("Close", [some 1])]⟩] 0).1.getD 0 ⟨[]⟩ =
      ([⟨[("Close", [some 1])]⟩] : List DataFrame).getD 0 ⟨[]⟩) :=
  calculators_no_caller_mutation [⟨[("Close", [some 1])]⟩] 0 (by norm_num) 1 2
    (fun _ => 0)
